import Mathlib

/-!
Verification of the rendezvous key-value server (Jipok/rendezvous).

The development shallowly embeds the server's core: the entry store with
owner secrets (`handleKeyRequest` in main.go), the per-IP token rate
limiter (`mainHandler`, `resetRateLimit`), the `ip/` key rewriting of
POST requests, the expiry sweep (`cleanupExpiredKeys`), and the JSON
snapshot persistence (`saveKVStore` / `loadKVStore` in persist.go).

Go strings and byte slices are modelled as `List Char`; Go maps as
association lists with `mapGet` / `mapSet` mirroring map read and map
assignment; timestamps as `Int` (Unix seconds); the `uint8` token
counter arithmetic keeps the `% 256` truncation of Go's int-to-uint8
conversion.
-/

namespace Rendezvous

/-- Character-list model of a Go string / byte slice. -/
abbrev Str := List Char

/-- Model of the Go `[4]byte` IPv4 key of the rate-limit map. -/
abbrev IPAddr := Nat × Nat × Nat × Nat

/-- Configuration flags consumed by the core (main.go lines 25-36).
`maxRequests` is a Go int; the rate limiter truncates it to `uint8`. -/
structure Config where
  maxKeySize : Nat
  maxValueSize : Nat
  maxNumKV : Nat
  maxRequests : Nat
deriving DecidableEq

/-- Entry represents a stored key-value pair (main.go lines 43-47). -/
structure Entry where
  value : Str
  secret : Str
  lastUpdate : Int
deriving DecidableEq

/-- Go map read: first binding of the key in the association list. -/
def mapGet {α β : Type} [DecidableEq α] : List (α × β) → α → Option β
  | [], _ => none
  | (a, b) :: rest, a' => if a = a' then some b else mapGet rest a'

/-- Go map assignment: replace the binding if present, append otherwise. -/
def mapSet {α β : Type} [DecidableEq α] : List (α × β) → α → β → List (α × β)
  | [], a, b => [(a, b)]
  | (a', b') :: rest, a, b =>
    if a' = a then (a, b) :: rest else (a', b') :: mapSet rest a b

/-- Store state: the `kvMap` mapping keys to entries (main.go line 51). -/
abbrev Store := List (Str × Entry)

/-- Rate limiter state: the `rateLimit` map of available tokens per IP
(main.go line 54).  Values are the `uint8` counters, kept in `Nat`. -/
abbrev RateMap := List (IPAddr × Nat)

/-- Outcome of the store-mutation part of a POST (main.go lines 201-224). -/
inductive PutResult where
  | ok
  | secretMismatch
  | capacityExceeded
deriving DecidableEq

/-- Store mutation of `handleKeyRequest` for POST, after the size checks
(main.go lines 201-224): secret authorization, secret adoption,
in-place update, and capacity-checked insert. -/
def storePut (cfg : Config) (s : Store) (key : Str) (body : Str)
    (authSecret : Str) (now : Int) : PutResult × Store :=
  match mapGet s key with
  | some entry =>
    if entry.secret ≠ [] ∧ entry.secret ≠ authSecret then
      (.secretMismatch, s)
    else
      let newSecret := if entry.secret = [] ∧ authSecret ≠ [] then authSecret
                       else entry.secret
      (.ok, mapSet s key ⟨body, newSecret, now⟩)
  | none =>
    if cfg.maxNumKV ≤ s.length then
      (.capacityExceeded, s)
    else
      (.ok, mapSet s key ⟨body, authSecret, now⟩)

/-- Available tokens for an IP: the stored counter, or the default
`uint8(*maxRequests)` when the IP is absent (main.go lines 139-142). -/
def availableTokensFor (cfg : Config) (rl : RateMap) (ip : IPAddr) : Nat :=
  match mapGet rl ip with
  | some t => t
  | none => cfg.maxRequests % 256

/-- Token consumption of `mainHandler` (main.go lines 143-162): refuse
when fewer than `cost` tokens remain, leaving the map untouched;
otherwise subtract and write the counter back. -/
def consume (cfg : Config) (rl : RateMap) (ip : IPAddr) (cost : Nat) :
    Bool × RateMap :=
  let availableTokens := availableTokensFor cfg rl ip
  if availableTokens < cost then (false, rl)
  else (true, mapSet rl ip (availableTokens - cost))

/-- Cost of a POST request (main.go line 150). -/
def postCost : Nat := 3

/-- Cost of a GET request (main.go line 158). -/
def getCost : Nat := 1

/-- Window reset: `rateLimit = make(map[[4]byte]uint8)` discards the
previous map entirely (main.go lines 269-276). -/
def resetRateLimit (_previous : RateMap) : RateMap := []

/-- Literal segment bytes of the string "ip/". -/
def ipSeg : Str := ['i', 'p', '/']

/-- Key rewriting for POSTs to `ip/` paths (main.go lines 164-169):
`key = "ip/" + stringIP + "/" + remainder` when the raw key is longer
than three bytes and starts with `ip/`; otherwise unchanged. -/
def ipRewriteKey (key : Str) (stringIP : Str) : Str :=
  if 3 < key.length ∧ key.take 3 = ipSeg then
    ipSeg ++ stringIP ++ ['/'] ++ key.drop 3
  else key

/-- Response body of a successful POST (main.go lines 226-232): the
client's IP text for `ip/` keys, the literal OK otherwise. -/
def postResponse (key : Str) (stringIP : Str) : Str :=
  if ipSeg.isPrefixOf key then stringIP else ['O', 'K']

/-- Outcome of one POST request through `mainHandler`. -/
inductive PostOutcome where
  | served (resp : Str)
  | keyRequired
  | keyTooLong
  | rateLimited
  | valueTooLarge
  | secretMismatch
  | capacityExceeded
deriving DecidableEq

/-- One POST request through `mainHandler` and `handleKeyRequest`
(main.go lines 110-232): key extraction and length check, rate
limiting, `ip/` rewriting, value-plus-secret size checks, then the
store mutation; returns the outcome with the new store and rate map. -/
def mainHandlerPost (cfg : Config) (s : Store) (rl : RateMap) (rawKey : Str)
    (ip : IPAddr) (stringIP : Str) (body : Str) (authSecret : Str)
    (now : Int) : PostOutcome × Store × RateMap :=
  if rawKey = [] then (.keyRequired, s, rl)
  else if cfg.maxKeySize < rawKey.length then (.keyTooLong, s, rl)
  else
    match consume cfg rl ip postCost with
    | (false, _) => (.rateLimited, s, rl)
    | (true, rl') =>
      let key := ipRewriteKey rawKey stringIP
      if cfg.maxValueSize < authSecret.length then (.valueTooLarge, s, rl')
      else if cfg.maxValueSize - authSecret.length < body.length then
        (.valueTooLarge, s, rl')
      else
        match storePut cfg s key body authSecret now with
        | (.ok, s') => (.served (postResponse key stringIP), s', rl')
        | (.secretMismatch, s') => (.secretMismatch, s', rl')
        | (.capacityExceeded, s') => (.capacityExceeded, s', rl')

/-- GET branch of `handleKeyRequest` (main.go lines 234-246): return the
stored value when the key is present, a not-found outcome otherwise.
No expiry test is performed here. -/
def handleGet (s : Store) (key : Str) : Option Str :=
  match mapGet s key with
  | none => none
  | some entry => some entry.value

/-- One pass of `cleanupExpiredKeys` (main.go lines 250-266): delete
every entry with `now - lastUpdate > ttl`, counting deletions. -/
def sweepExpired : Store → Int → Int → Store × Nat
  | [], _, _ => ([], 0)
  | (key, entry) :: rest, now, ttl =>
    let r := sweepExpired rest now ttl
    if ttl < now - entry.lastUpdate then (r.1, r.2 + 1)
    else ((key, entry) :: r.1, r.2)

/-- Snapshot flush of `saveKVStore` (persist.go lines 14-60): the
serialized data is the map of key to stored value only. -/
def saveKVStore (s : Store) : List (Str × Str) :=
  s.map fun p => (p.1, p.2.value)

/-- Snapshot load of `loadKVStore` (persist.go lines 64-89): each loaded
key is assigned an entry holding the saved value and `LastUpdate`
equal to the load time; the secret field is the Go zero value. -/
def loadKVStore (data : List (Str × Str)) (s : Store) (now : Int) : Store :=
  data.foldl (fun acc p => mapSet acc p.1 ⟨p.2, [], now⟩) s

/-! Association-map lemmas shared by the claim proofs. -/

theorem mapGet_mapSet_self {α β : Type} [DecidableEq α]
    (l : List (α × β)) (a : α) (b : β) :
    mapGet (mapSet l a b) a = some b := by
  induction l with
  | nil => simp [mapGet, mapSet]
  | cons p rest ih =>
    obtain ⟨a', b'⟩ := p
    by_cases h : a' = a
    · simp [mapSet, h, mapGet]
    · simp [mapSet, h, mapGet, ih]

theorem mapGet_mapSet_ne {α β : Type} [DecidableEq α]
    (l : List (α × β)) (a a' : α) (b : β) (h : a' ≠ a) :
    mapGet (mapSet l a b) a' = mapGet l a' := by
  induction l with
  | nil => simp [mapGet, mapSet, Ne.symm h]
  | cons p rest ih =>
    obtain ⟨a'', b''⟩ := p
    by_cases h' : a'' = a
    · subst h'
      simp [mapSet, mapGet, Ne.symm h]
    · simp [mapSet, h', mapGet, ih]

theorem mapGet_eq_none_iff {α β : Type} [DecidableEq α]
    (l : List (α × β)) (a : α) :
    mapGet l a = none ↔ a ∉ l.map Prod.fst := by
  induction l with
  | nil => simp [mapGet]
  | cons p rest ih =>
    obtain ⟨a', b'⟩ := p
    by_cases h : a' = a
    · simp [mapGet, h]
    · simp [mapGet, h, ih, Ne.symm h]

theorem mapGet_some_mem {α β : Type} [DecidableEq α]
    {l : List (α × β)} {a : α} {b : β} (h : mapGet l a = some b) :
    (a, b) ∈ l := by
  induction l with
  | nil => simp [mapGet] at h
  | cons p rest ih =>
    obtain ⟨a', b'⟩ := p
    by_cases h' : a' = a
    · subst h'
      simp [mapGet] at h
      simp [h]
    · simp [mapGet, h'] at h
      exact List.mem_cons_of_mem _ (ih h)

/-! Helper lemmas about `storePut`. -/

theorem storePut_mapGet_ne (cfg : Config) (s : Store) (key body authSecret : Str)
    (now : Int) (k' : Str) (hk : k' ≠ key) :
    mapGet (storePut cfg s key body authSecret now).2 k' = mapGet s k' := by
  cases hfound : mapGet s key with
  | some entry =>
    by_cases hsec : entry.secret ≠ [] ∧ entry.secret ≠ authSecret
    · simp [storePut, hfound, hsec]
    · simp [storePut, hfound, hsec, mapGet_mapSet_ne _ _ _ _ hk]
  | none =>
    by_cases hcap : cfg.maxNumKV ≤ s.length
    · simp [storePut, hfound, hcap]
    · simp [storePut, hfound, hcap, mapGet_mapSet_ne _ _ _ _ hk]

theorem storePut_not_ok_store (cfg : Config) (s : Store) (key body authSecret : Str)
    (now : Int) (h : (storePut cfg s key body authSecret now).1 ≠ .ok) :
    (storePut cfg s key body authSecret now).2 = s := by
  cases hfound : mapGet s key with
  | some entry =>
    by_cases hsec : entry.secret ≠ [] ∧ entry.secret ≠ authSecret
    · simp [storePut, hfound, hsec]
    · simp [storePut, hfound, hsec] at h
  | none =>
    by_cases hcap : cfg.maxNumKV ≤ s.length
    · simp [storePut, hfound, hcap]
    · simp [storePut, hfound, hcap] at h

theorem storePut_ok_store (cfg : Config) (s : Store) (key body authSecret : Str)
    (now : Int) (h : (storePut cfg s key body authSecret now).1 = .ok) :
    ∃ sec, (storePut cfg s key body authSecret now).2
      = mapSet s key ⟨body, sec, now⟩ := by
  cases hfound : mapGet s key with
  | some entry =>
    by_cases hsec : entry.secret ≠ [] ∧ entry.secret ≠ authSecret
    · simp [storePut, hfound, hsec] at h
    · exact ⟨if entry.secret = [] ∧ ¬authSecret = [] then authSecret else entry.secret,
        by simp [storePut, hfound, hsec]⟩
  | none =>
    by_cases hcap : cfg.maxNumKV ≤ s.length
    · simp [storePut, hfound, hcap] at h
    · exact ⟨authSecret, by simp [storePut, hfound, hcap]⟩

/-! Claim theorems. -/

/-- C1: for every key whose entry has a non-empty owner secret, a put
supplying a different secret returns `SecretMismatch` and leaves the
store, hence the entry's value and secret, exactly as before. -/
theorem put_wrong_secret_rejected (cfg : Config) (s : Store)
    (key body authSecret : Str) (now : Int) (entry : Entry)
    (hfound : mapGet s key = some entry)
    (howned : entry.secret ≠ [])
    (hdiff : entry.secret ≠ authSecret) :
    storePut cfg s key body authSecret now = (.secretMismatch, s) := by
  simp [storePut, hfound, howned, hdiff]

/-- C1 witness: the spec scenario, a put of `v3` with the wrong secret to a
key owned under `s1` holding `v2` is rejected and the store is unchanged. -/
theorem put_wrong_secret_rejected_witness :
    storePut ⟨100, 1000, 100, 11⟩ [(['k'], ⟨['v', '2'], ['s', '1'], 0⟩)]
        ['k'] ['v', '3'] ['w'] 1
      = (.secretMismatch, [(['k'], ⟨['v', '2'], ['s', '1'], 0⟩)]) :=
  put_wrong_secret_rejected ⟨100, 1000, 100, 11⟩
    [(['k'], ⟨['v', '2'], ['s', '1'], 0⟩)] ['k'] ['v', '3'] ['w'] 1
    ⟨['v', '2'], ['s', '1'], 0⟩ (by decide) (by decide) (by decide)

/-- C3: a put to a key already present never returns `CapacityExceeded`,
even at capacity; a put to an absent key with the store at or above
capacity returns `CapacityExceeded` and leaves the store unchanged. -/
theorem put_capacity_behavior (cfg : Config) (s : Store)
    (key body authSecret : Str) (now : Int) :
    (∀ entry, mapGet s key = some entry →
      (storePut cfg s key body authSecret now).1 ≠ PutResult.capacityExceeded)
    ∧ (mapGet s key = none → cfg.maxNumKV ≤ s.length →
      storePut cfg s key body authSecret now = (.capacityExceeded, s)) := by
  refine ⟨fun entry hfound => ?_, fun hnone hcap => ?_⟩
  · by_cases hsec : entry.secret ≠ [] ∧ entry.secret ≠ authSecret
    · simp [storePut, hfound, hsec]
    · simp [storePut, hfound, hsec]
  · simp [storePut, hnone, hcap]

/-- C3 witness: the spec scenario with `maxNumKV = 2` and keys `a`, `b`
stored, a put to the fresh key `c` is rejected for capacity while an
update of `a` is not capacity-limited. -/
theorem put_capacity_behavior_witness :
    (storePut ⟨100, 1000, 2, 11⟩ [(['a'], ⟨['x'], [], 0⟩), (['b'], ⟨['y'], [], 0⟩)]
        ['a'] ['x', '2'] [] 1).1 ≠ PutResult.capacityExceeded
    ∧ storePut ⟨100, 1000, 2, 11⟩ [(['a'], ⟨['x'], [], 0⟩), (['b'], ⟨['y'], [], 0⟩)]
        ['c'] ['z'] [] 1
      = (.capacityExceeded, [(['a'], ⟨['x'], [], 0⟩), (['b'], ⟨['y'], [], 0⟩)]) :=
  ⟨(put_capacity_behavior ⟨100, 1000, 2, 11⟩
      [(['a'], ⟨['x'], [], 0⟩), (['b'], ⟨['y'], [], 0⟩)] ['a'] ['x', '2'] [] 1).1
      ⟨['x'], [], 0⟩ (by decide),
   (put_capacity_behavior ⟨100, 1000, 2, 11⟩
      [(['a'], ⟨['x'], [], 0⟩), (['b'], ⟨['y'], [], 0⟩)] ['c'] ['z'] [] 1).2
      (by decide) (by decide)⟩

/-- C7: across any put, an entry's secret is never modified once non-empty
(in particular every successful update preserves it), any change of the
secret is the one-time adoption of a supplied non-empty secret by a
previously unclaimed entry, and for a successful put to an unclaimed key
with a supplied secret the entry adopts exactly that secret. -/
theorem put_secret_write_once (cfg : Config) (s : Store) (key body authSecret : Str)
    (now : Int) (k' : Str) (e e' : Entry)
    (h : mapGet s k' = some e)
    (h' : mapGet (storePut cfg s key body authSecret now).2 k' = some e') :
    (e.secret ≠ [] → e'.secret = e.secret)
    ∧ (e'.secret ≠ e.secret → e.secret = [] ∧ e'.secret = authSecret ∧ authSecret ≠ [])
    ∧ ((storePut cfg s key body authSecret now).1 = .ok → k' = key →
        e.secret = [] → authSecret ≠ [] → e'.secret = authSecret) := by
  by_cases hk : k' = key
  · subst hk
    by_cases hsec : e.secret ≠ [] ∧ e.secret ≠ authSecret
    · have hput : storePut cfg s k' body authSecret now = (.secretMismatch, s) := by
        simp [storePut, h, hsec]
      rw [hput] at h' ⊢
      have he : e = e' := Option.some_inj.mp (h.symm.trans h')
      subst he
      exact ⟨fun _ => rfl, fun hne => absurd rfl hne, fun hok => by simp at hok⟩
    · have hput : storePut cfg s k' body authSecret now
          = (.ok, mapSet s k' ⟨body,
              if e.secret = [] ∧ ¬authSecret = [] then authSecret else e.secret, now⟩) := by
        simp [storePut, h, hsec]
      rw [hput] at h' ⊢
      rw [show (PutResult.ok,
          mapSet s k' (⟨body, if e.secret = [] ∧ ¬authSecret = [] then authSecret
            else e.secret, now⟩ : Entry)).2
          = mapSet s k' ⟨body, if e.secret = [] ∧ ¬authSecret = [] then authSecret
            else e.secret, now⟩ from rfl, mapGet_mapSet_self] at h'
      have he' : e' = ⟨body, if e.secret = [] ∧ ¬authSecret = [] then authSecret
          else e.secret, now⟩ := (Option.some_inj.mp h').symm
      subst he'
      by_cases hcond : e.secret = [] ∧ ¬authSecret = []
      · have hif : (if e.secret = [] ∧ ¬authSecret = [] then authSecret else e.secret)
            = authSecret := if_pos hcond
        exact ⟨fun hne => absurd hcond.1 hne, fun _ => ⟨hcond.1, hif, hcond.2⟩,
          fun _ _ _ _ => hif⟩
      · have hif : (if e.secret = [] ∧ ¬authSecret = [] then authSecret else e.secret)
            = e.secret := if_neg hcond
        exact ⟨fun _ => hif, fun hne => absurd hif hne,
          fun _ _ h1 h2 => absurd ⟨h1, h2⟩ hcond⟩
  · rw [storePut_mapGet_ne cfg s key body authSecret now k' hk] at h'
    have he : e = e' := Option.some_inj.mp (h.symm.trans h')
    subst he
    exact ⟨fun _ => rfl, fun hne => absurd rfl hne, fun _ hkk => absurd hkk hk⟩

/-- C7 witness: an unclaimed entry adopts the secret supplied by a put, in
line with the three conjuncts of the write-once property. -/
theorem put_secret_write_once_witness :
    (([] : Str) ≠ [] → (['s'] : Str) = [])
    ∧ ((['s'] : Str) ≠ [] → ([] : Str) = [] ∧ (['s'] : Str) = ['s'] ∧ (['s'] : Str) ≠ [])
    ∧ ((storePut ⟨100, 1000, 100, 11⟩ [(['k'], ⟨['v'], [], 0⟩)] ['k'] ['w'] ['s'] 1).1 = .ok →
        (['k'] : Str) = ['k'] → ([] : Str) = [] → (['s'] : Str) ≠ [] →
        (['s'] : Str) = ['s']) :=
  put_secret_write_once ⟨100, 1000, 100, 11⟩ [(['k'], ⟨['v'], [], 0⟩)] ['k'] ['w'] ['s'] 1
    ['k'] ⟨['v'], [], 0⟩ ⟨['w'], ['s'], 1⟩ (by decide) (by decide)

/-- Membership in the store left by one sweep pass: a binding survives
exactly when it was present and not expired. -/
theorem mem_sweepExpired_iff (s : Store) (now ttl : Int) (k : Str) (e : Entry) :
    (k, e) ∈ (sweepExpired s now ttl).1
      ↔ ((k, e) ∈ s ∧ now - e.lastUpdate ≤ ttl) := by
  induction s with
  | nil => simp [sweepExpired]
  | cons p rest ih =>
    obtain ⟨k', e'⟩ := p
    by_cases hexp : ttl < now - e'.lastUpdate
    · have h1 : (sweepExpired ((k', e') :: rest) now ttl).1
          = (sweepExpired rest now ttl).1 := by
        simp [sweepExpired, hexp]
      rw [h1, ih]
      constructor
      · rintro ⟨hm, hle⟩
        exact ⟨List.mem_cons_of_mem _ hm, hle⟩
      · rintro ⟨hm, hle⟩
        rcases List.mem_cons.mp hm with heq | hm'
        · simp only [Prod.mk.injEq] at heq
          obtain ⟨rfl, rfl⟩ := heq
          omega
        · exact ⟨hm', hle⟩
    · have h1 : (sweepExpired ((k', e') :: rest) now ttl).1
          = (k', e') :: (sweepExpired rest now ttl).1 := by
        simp [sweepExpired, hexp]
      rw [h1]
      simp only [List.mem_cons, ih]
      constructor
      · rintro (heq | ⟨hm, hle⟩)
        · simp only [Prod.mk.injEq] at heq
          obtain ⟨rfl, rfl⟩ := heq
          exact ⟨Or.inl rfl, by omega⟩
        · exact ⟨Or.inr hm, hle⟩
      · rintro ⟨heq | hm, hle⟩
        · exact Or.inl heq
        · exact Or.inr ⟨hm, hle⟩

/-- C8: the expiry sweep removes exactly the entries with
`now - lastUpdate > ttl`; every surviving binding is present with the
identical entry, hence identical value and secret. -/
theorem sweep_removes_exactly_expired (s : Store) (now ttl : Int) (k : Str) (e : Entry) :
    (k, e) ∈ (sweepExpired s now ttl).1
      ↔ ((k, e) ∈ s ∧ now - e.lastUpdate ≤ ttl) :=
  mem_sweepExpired_iff s now ttl k e

/-- C9 counterexample: an entry written at time 0 is long expired for
`now = 1000000` and `ttl = 3600`, yet before any sweep a read of it
returns the stored value rather than a not-found outcome. -/
theorem get_expired_returns_value_cex :
    ((1000000 : Int) - 0 > 3600)
    ∧ handleGet [(['k'], ⟨['v'], [], 0⟩)] ['k'] = some ['v'] :=
  ⟨by decide, by decide⟩

/-- C9 amended: a read of an expired entry that the sweep has not yet
removed still returns its stored value, since the GET path performs no
expiry check; the entry is gone only after the sweep deletes it. -/
theorem get_expired_before_sweep (s : Store) (now ttl : Int) (k : Str) (e : Entry)
    (hfound : mapGet s k = some e) (hexpired : ttl < now - e.lastUpdate) :
    handleGet s k = some e.value
    ∧ (k, e) ∉ (sweepExpired s now ttl).1 := by
  refine ⟨by simp [handleGet, hfound], fun hmem => ?_⟩
  have := (mem_sweepExpired_iff s now ttl k e).mp hmem
  omega

/-- C9 amended witness: the expired entry at key `k` is still served before
the sweep and absent from the swept store. -/
theorem get_expired_before_sweep_witness :
    handleGet [(['k'], ⟨['v'], [], 0⟩)] ['k'] = some ['v']
    ∧ (['k'], (⟨['v'], [], 0⟩ : Entry))
        ∉ (sweepExpired [(['k'], ⟨['v'], [], 0⟩)] 1000000 3600).1 :=
  get_expired_before_sweep [(['k'], ⟨['v'], [], 0⟩)] 1000000 3600 ['k']
    ⟨['v'], [], 0⟩ (by decide) (by decide)

/-- C10 counterexample: with `maxRequests` configured to 300, after a
window reset an IP that consumed tokens in the previous window has
budget `uint8(300) = 44`, not 300. -/
theorem reset_budget_cex :
    availableTokensFor ⟨100, 1000, 100, 300⟩
        (resetRateLimit [((203, 0, 113, 7), 2)]) (203, 0, 113, 7) ≠ 300 := by
  decide

/-- C10 amended: after a window reset, every IP's budget (whatever it
consumed before the reset) is `maxRequests % 256`, the uint8 truncation
of the configured value; this equals `maxRequests` exactly for
configurations with `maxRequests < 256`. -/
theorem reset_budget_restored (cfg : Config) (rlPrev : RateMap) (ip : IPAddr) :
    availableTokensFor cfg (resetRateLimit rlPrev) ip = cfg.maxRequests % 256 := rfl

/-- C4 counterexample: with `maxRequests = 258` the uint8 default budget is
2, so a first-seen IP is not given budget 258 and its first POST
(cost 3) is refused even though 3 + 1 ≤ 258. -/
theorem rate_window_cex :
    (3 + 1 ≤ 258)
    ∧ availableTokensFor ⟨100, 1000, 100, 258⟩ [] (9, 9, 9, 9) ≠ 258
    ∧ (consume ⟨100, 1000, 100, 258⟩ [] (9, 9, 9, 9) 3).1 = false :=
  ⟨by decide, by decide, by decide⟩

/-- C4 amended: within one window, a first-seen IP has budget
`maxRequests % 256` (the uint8 truncation, equal to `maxRequests`
whenever it is below 256); two consumptions whose costs sum to at most
that budget both succeed; and any consume exceeding the available
budget is refused and leaves the rate map unchanged. -/
theorem rate_window_consume (cfg : Config) (rl : RateMap) (ip : IPAddr) (c1 c2 : Nat)
    (hfresh : mapGet rl ip = none)
    (hsum : c1 + c2 ≤ cfg.maxRequests % 256) :
    availableTokensFor cfg rl ip = cfg.maxRequests % 256
    ∧ (consume cfg rl ip c1).1 = true
    ∧ (consume cfg (consume cfg rl ip c1).2 ip c2).1 = true
    ∧ ∀ rl' c, availableTokensFor cfg rl' ip < c →
        consume cfg rl' ip c = (false, rl') := by
  have havail : availableTokensFor cfg rl ip = cfg.maxRequests % 256 := by
    simp [availableTokensFor, hfresh]
  have hc1 : ¬ (cfg.maxRequests % 256 < c1) := by omega
  have h1 : consume cfg rl ip c1
      = (true, mapSet rl ip (cfg.maxRequests % 256 - c1)) := by
    simp [consume, havail, hc1]
  have havail2 : availableTokensFor cfg (consume cfg rl ip c1).2 ip
      = cfg.maxRequests % 256 - c1 := by
    rw [h1]
    simp [availableTokensFor, mapGet_mapSet_self]
  have hc2 : ¬ (cfg.maxRequests % 256 - c1 < c2) := by omega
  have havail2' : availableTokensFor cfg (mapSet rl ip (cfg.maxRequests % 256 - c1)) ip
      = cfg.maxRequests % 256 - c1 := by
    simp [availableTokensFor, mapGet_mapSet_self]
  refine ⟨havail, by rw [h1], ?_, ?_⟩
  · rw [h1]
    simp [consume, havail2', hc2]
  · intro rl' c hlt
    simp [consume, hlt]

/-- C4 amended witness: under the default configuration, budget 11 for a
fresh IP, a POST (cost 3) then a GET (cost 1) both succeed, and a
consume of cost 9 against 7 remaining tokens is refused without
touching the counter. -/
theorem rate_window_consume_witness :
    availableTokensFor ⟨100, 1000, 100, 11⟩ [] (1, 2, 3, 4) = 11 % 256
    ∧ (consume ⟨100, 1000, 100, 11⟩ [] (1, 2, 3, 4) 3).1 = true
    ∧ (consume ⟨100, 1000, 100, 11⟩
        (consume ⟨100, 1000, 100, 11⟩ [] (1, 2, 3, 4) 3).2 (1, 2, 3, 4) 1).1 = true
    ∧ consume ⟨100, 1000, 100, 11⟩ [((1, 2, 3, 4), 7)] (1, 2, 3, 4) 9
      = (false, [((1, 2, 3, 4), 7)]) := by
  obtain ⟨h1, h2, h3, h4⟩ :=
    rate_window_consume ⟨100, 1000, 100, 11⟩ [] (1, 2, 3, 4) 3 1 (by decide) (by decide)
  exact ⟨h1, h2, h3, h4 [((1, 2, 3, 4), 7)] 9 (by decide)⟩

/-- Case analysis of one POST through the handler: either the request was
rejected (store untouched, nothing served), or it succeeded, the only
key written is the effective (possibly rewritten) key, and the response
is the one computed from that key. -/
theorem mainHandlerPost_cases (cfg : Config) (s : Store) (rl : RateMap) (rawKey : Str)
    (ip : IPAddr) (stringIP body authSecret : Str) (now : Int) :
    ((mainHandlerPost cfg s rl rawKey ip stringIP body authSecret now).2.1 = s
      ∧ ∀ resp, (mainHandlerPost cfg s rl rawKey ip stringIP body authSecret now).1
          ≠ .served resp)
    ∨ (∃ sec, (mainHandlerPost cfg s rl rawKey ip stringIP body authSecret now).2.1
          = mapSet s (ipRewriteKey rawKey stringIP) ⟨body, sec, now⟩
        ∧ (mainHandlerPost cfg s rl rawKey ip stringIP body authSecret now).1
          = .served (postResponse (ipRewriteKey rawKey stringIP) stringIP)) := by
  by_cases hk0 : rawKey = []
  · exact Or.inl ⟨by simp [mainHandlerPost, hk0], by simp [mainHandlerPost, hk0]⟩
  by_cases hklen : cfg.maxKeySize < rawKey.length
  · exact Or.inl ⟨by simp [mainHandlerPost, hk0, hklen],
      by simp [mainHandlerPost, hk0, hklen]⟩
  rcases hcons : consume cfg rl ip postCost with ⟨ok, rl'⟩
  cases ok
  · exact Or.inl ⟨by simp [mainHandlerPost, hk0, hklen, hcons],
      by simp [mainHandlerPost, hk0, hklen, hcons]⟩
  by_cases hs1 : cfg.maxValueSize < authSecret.length
  · exact Or.inl ⟨by simp [mainHandlerPost, hk0, hklen, hcons, hs1],
      by simp [mainHandlerPost, hk0, hklen, hcons, hs1]⟩
  by_cases hs2 : cfg.maxValueSize - authSecret.length < body.length
  · exact Or.inl ⟨by simp [mainHandlerPost, hk0, hklen, hcons, hs1, hs2],
      by simp [mainHandlerPost, hk0, hklen, hcons, hs1, hs2]⟩
  rcases hsp : storePut cfg s (ipRewriteKey rawKey stringIP) body authSecret now
    with ⟨r, s'⟩
  cases r
  · have hok : (storePut cfg s (ipRewriteKey rawKey stringIP) body authSecret now).1
        = .ok := by rw [hsp]
    obtain ⟨sec, hsec⟩ :=
      storePut_ok_store cfg s (ipRewriteKey rawKey stringIP) body authSecret now hok
    rw [hsp] at hsec
    refine Or.inr ⟨sec, ?_, ?_⟩
    · simp only [mainHandlerPost, hk0, hklen, hcons, hs1, hs2, hsp]
      simpa using hsec
    · simp [mainHandlerPost, hk0, hklen, hcons, hs1, hs2, hsp]
  · have hnot : (storePut cfg s (ipRewriteKey rawKey stringIP) body authSecret now).1
        ≠ .ok := by rw [hsp]; simp
    have hsame := storePut_not_ok_store cfg s (ipRewriteKey rawKey stringIP)
      body authSecret now hnot
    rw [hsp] at hsame
    refine Or.inl ⟨?_, ?_⟩
    · simp only [mainHandlerPost, hk0, hklen, hcons, hs1, hs2, hsp]
      simpa using hsame
    · simp [mainHandlerPost, hk0, hklen, hcons, hs1, hs2, hsp]
  · have hnot : (storePut cfg s (ipRewriteKey rawKey stringIP) body authSecret now).1
        ≠ .ok := by rw [hsp]; simp
    have hsame := storePut_not_ok_store cfg s (ipRewriteKey rawKey stringIP)
      body authSecret now hnot
    rw [hsp] at hsame
    refine Or.inl ⟨?_, ?_⟩
    · simp only [mainHandlerPost, hk0, hklen, hcons, hs1, hs2, hsp]
      simpa using hsame
    · simp [mainHandlerPost, hk0, hklen, hcons, hs1, hs2, hsp]

/-- Length of the effective key: the rewrite adds at most the IP text plus
one separator byte to the raw key. -/
theorem ipRewriteKey_length_le (rawKey stringIP : Str) :
    (ipRewriteKey rawKey stringIP).length
      ≤ rawKey.length + stringIP.length + 1 := by
  unfold ipRewriteKey
  split
  · rename_i h
    obtain ⟨h1, _⟩ := h
    simp only [List.length_append, List.length_drop, ipSeg, List.length_cons,
      List.length_nil]
    omega
  · omega

/-- C2 counterexample: with `maxKeySize = 10`, a POST of the 10-byte raw
key `ip/abcdefg` from IP `1.2.3.4` passes the key length check, yet the
rewritten key `ip/1.2.3.4/abcdefg` of length 18 is inserted, so the
store holds a key longer than `maxKeySize`. -/
theorem store_key_length_cex :
    (['i', 'p', '/', 'a', 'b', 'c', 'd', 'e', 'f', 'g'] : Str).length ≤ 10
    ∧ ((mainHandlerPost ⟨10, 1000, 100, 11⟩ [] []
        ['i', 'p', '/', 'a', 'b', 'c', 'd', 'e', 'f', 'g'] (1, 2, 3, 4)
        ['1', '.', '2', '.', '3', '.', '4'] ['v'] [] 0).2.1.all
          fun p => p.1.length ≤ 10) = false :=
  ⟨by decide, by decide⟩

/-- C2 amended: a POST whose raw key passed the length check adds at most
one key to the store, the effective (possibly rewritten) one, and
every key of the resulting store is either a pre-existing key or has
length at most `maxKeySize + len(stringIP) + 1`; so non-rewritten keys
obey `len(key) ≤ maxKeySize` while rewritten keys may exceed it by up
to `len(stringIP) + 1`. -/
theorem handler_key_length_bound (cfg : Config) (s : Store) (rl : RateMap)
    (rawKey : Str) (ip : IPAddr) (stringIP body authSecret : Str) (now : Int)
    (hraw : rawKey.length ≤ cfg.maxKeySize) :
    ∀ k e, mapGet (mainHandlerPost cfg s rl rawKey ip stringIP body authSecret
        now).2.1 k = some e →
      mapGet s k = some e
      ∨ k.length ≤ cfg.maxKeySize + stringIP.length + 1 := by
  intro k e hke
  rcases mainHandlerPost_cases cfg s rl rawKey ip stringIP body authSecret now
    with ⟨hsame, _⟩ | ⟨sec, hstore, _⟩
  · rw [hsame] at hke
    exact Or.inl hke
  · rw [hstore] at hke
    by_cases hkk : k = ipRewriteKey rawKey stringIP
    · refine Or.inr ?_
      subst hkk
      have := ipRewriteKey_length_le rawKey stringIP
      omega
    · rw [mapGet_mapSet_ne _ _ _ _ hkk] at hke
      exact Or.inl hke

/-- C2 amended witness: the rewritten 18-byte key stored by the
counterexample request obeys the corrected bound 10 + 7 + 1. -/
theorem handler_key_length_bound_witness :
    mapGet ([] : Store)
        ['i', 'p', '/', '1', '.', '2', '.', '3', '.', '4', '/', 'a', 'b', 'c', 'd', 'e', 'f', 'g']
        = some ⟨['v'], [], 0⟩
    ∨ (['i', 'p', '/', '1', '.', '2', '.', '3', '.', '4', '/', 'a', 'b', 'c', 'd', 'e', 'f', 'g'] :
        Str).length ≤ 10 + (['1', '.', '2', '.', '3', '.', '4'] : Str).length + 1 :=
  handler_key_length_bound ⟨10, 1000, 100, 11⟩ [] []
    ['i', 'p', '/', 'a', 'b', 'c', 'd', 'e', 'f', 'g'] (1, 2, 3, 4)
    ['1', '.', '2', '.', '3', '.', '4'] ['v'] [] 0 (by decide)
    ['i', 'p', '/', '1', '.', '2', '.', '3', '.', '4', '/', 'a', 'b', 'c', 'd', 'e', 'f', 'g']
    ⟨['v'], [], 0⟩ (by decide)

/-- C5 counterexample: a POST to the bare raw key `ip/`, which begins with
the segment `ip/`, is not rewritten: the request succeeds, the raw key
itself is stored and the claimed effective key `ip/1.2.3.4/` is absent
(the response, however, is still the caller's IP text). -/
theorem ip_rewrite_cex :
    ipSeg.isPrefixOf ['i', 'p', '/'] = true
    ∧ (mainHandlerPost ⟨100, 1000, 100, 11⟩ [] [] ['i', 'p', '/'] (1, 2, 3, 4)
        ['1', '.', '2', '.', '3', '.', '4'] ['v'] [] 0).1
      = .served ['1', '.', '2', '.', '3', '.', '4']
    ∧ mapGet (mainHandlerPost ⟨100, 1000, 100, 11⟩ [] [] ['i', 'p', '/'] (1, 2, 3, 4)
        ['1', '.', '2', '.', '3', '.', '4'] ['v'] [] 0).2.1
        (ipSeg ++ ['1', '.', '2', '.', '3', '.', '4'] ++ ['/']) = none
    ∧ mapGet (mainHandlerPost ⟨100, 1000, 100, 11⟩ [] [] ['i', 'p', '/'] (1, 2, 3, 4)
        ['1', '.', '2', '.', '3', '.', '4'] ['v'] [] 0).2.1 ['i', 'p', '/'] ≠ none :=
  ⟨by decide, by decide, by decide, by decide⟩

/-- C5 amended: for every successful POST whose raw key starts with `ip/`
and is strictly longer than three bytes, the key written to the store
is `ip/ + stringIP + / + remainder` (holding the posted body with the
write timestamp), no other key changes, and the response payload is the
caller's IP text rather than the OK acknowledgement. -/
theorem ip_namespacing (cfg : Config) (s : Store) (rl : RateMap) (rawKey : Str)
    (ip : IPAddr) (stringIP body authSecret : Str) (now : Int) (resp : Str)
    (hlen : 3 < rawKey.length) (hpre : rawKey.take 3 = ipSeg)
    (hout : (mainHandlerPost cfg s rl rawKey ip stringIP body authSecret now).1
      = .served resp) :
    resp = stringIP
    ∧ (∃ e, mapGet (mainHandlerPost cfg s rl rawKey ip stringIP body authSecret
          now).2.1 (ipSeg ++ stringIP ++ ['/'] ++ rawKey.drop 3) = some e
        ∧ e.value = body ∧ e.lastUpdate = now)
    ∧ ∀ k, k ≠ ipSeg ++ stringIP ++ ['/'] ++ rawKey.drop 3 →
        mapGet (mainHandlerPost cfg s rl rawKey ip stringIP body authSecret
          now).2.1 k = mapGet s k := by
  have hrw : ipRewriteKey rawKey stringIP
      = ipSeg ++ stringIP ++ ['/'] ++ rawKey.drop 3 := by
    simp [ipRewriteKey, hlen, hpre]
  have hpfx : ipSeg <+: (ipSeg ++ stringIP ++ ['/'] ++ rawKey.drop 3) := by
    have h1 : ipSeg ++ stringIP ++ ['/'] ++ rawKey.drop 3
        = ipSeg ++ (stringIP ++ (['/'] ++ rawKey.drop 3)) := by
      simp [List.append_assoc]
    rw [h1]
    exact List.prefix_append _ _
  have hresp0 : postResponse (ipSeg ++ stringIP ++ ['/'] ++ rawKey.drop 3) stringIP
      = stringIP := by
    simp [postResponse, List.isPrefixOf_iff_prefix, hpfx]
  rcases mainHandlerPost_cases cfg s rl rawKey ip stringIP body authSecret now
    with ⟨_, hnone⟩ | ⟨sec, hstore, hserved⟩
  · exact absurd hout (hnone resp)
  · rw [hrw] at hstore hserved
    rw [hout] at hserved
    have hr : resp = stringIP := by
      rw [hresp0] at hserved
      exact (PostOutcome.served.injEq _ _).mp hserved
    refine ⟨hr, ⟨⟨body, sec, now⟩, ?_, rfl, rfl⟩, ?_⟩
    · rw [hstore]
      exact mapGet_mapSet_self _ _ _
    · intro k hk
      rw [hstore, mapGet_mapSet_ne _ _ _ _ hk]

/-- C5 amended witness: a POST to raw key `ip/x` from IP text `1.2.3.4`
serves the IP text, stores the body under `ip/1.2.3.4/x`, and an
unrelated key is untouched. -/
theorem ip_namespacing_witness :
    (['1', '.', '2', '.', '3', '.', '4'] : Str) = ['1', '.', '2', '.', '3', '.', '4']
    ∧ (∃ e, mapGet (mainHandlerPost ⟨100, 1000, 100, 11⟩ [] []
          ['i', 'p', '/', 'x'] (1, 2, 3, 4) ['1', '.', '2', '.', '3', '.', '4']
          ['v'] [] 0).2.1
          (ipSeg ++ ['1', '.', '2', '.', '3', '.', '4'] ++ ['/']
            ++ (['i', 'p', '/', 'x'] : Str).drop 3) = some e
        ∧ e.value = ['v'] ∧ e.lastUpdate = 0)
    ∧ mapGet (mainHandlerPost ⟨100, 1000, 100, 11⟩ [] []
        ['i', 'p', '/', 'x'] (1, 2, 3, 4) ['1', '.', '2', '.', '3', '.', '4']
        ['v'] [] 0).2.1 ['q'] = mapGet ([] : Store) ['q'] := by
  obtain ⟨h1, h2, h3⟩ := ip_namespacing ⟨100, 1000, 100, 11⟩ [] []
    ['i', 'p', '/', 'x'] (1, 2, 3, 4) ['1', '.', '2', '.', '3', '.', '4']
    ['v'] [] 0 ['1', '.', '2', '.', '3', '.', '4']
    (by decide) (by decide) (by decide)
  exact ⟨h1, h2, h3 ['q'] (by decide)⟩

/-- Loading a snapshot leaves keys outside the snapshot untouched. -/
theorem loadKVStore_mapGet_of_not_mem (data : List (Str × Str)) (now : Int) (k : Str) :
    ∀ s : Store, k ∉ data.map Prod.fst →
      mapGet (loadKVStore data s now) k = mapGet s k := by
  induction data with
  | nil => intro s _; rfl
  | cons p rest ih =>
    intro s hk
    obtain ⟨k', v⟩ := p
    simp only [List.map_cons, List.mem_cons, not_or] at hk
    obtain ⟨hk1, hk2⟩ := hk
    have hstep : loadKVStore ((k', v) :: rest) s now
        = loadKVStore rest (mapSet s k' ⟨v, [], now⟩) now := rfl
    rw [hstep, ih _ hk2, mapGet_mapSet_ne _ _ _ _ hk1]

/-- Loading a snapshot with distinct keys binds each snapshot key to its
saved value, with the empty secret and the load time. -/
theorem loadKVStore_mapGet_of_mem (data : List (Str × Str)) (now : Int) (k v : Str) :
    ∀ s : Store, (data.map Prod.fst).Nodup → (k, v) ∈ data →
      mapGet (loadKVStore data s now) k = some ⟨v, [], now⟩ := by
  induction data with
  | nil =>
    intro s _ hmem
    simp at hmem
  | cons p rest ih =>
    intro s hnd hmem
    obtain ⟨k', v'⟩ := p
    simp only [List.map_cons, List.nodup_cons] at hnd
    obtain ⟨hnotin, hndrest⟩ := hnd
    have hstep : loadKVStore ((k', v') :: rest) s now
        = loadKVStore rest (mapSet s k' ⟨v', [], now⟩) now := rfl
    rcases List.mem_cons.mp hmem with heq | hmemrest
    · simp only [Prod.mk.injEq] at heq
      obtain ⟨rfl, rfl⟩ := heq
      rw [hstep, loadKVStore_mapGet_of_not_mem rest now k _ hnotin,
        mapGet_mapSet_self]
    · rw [hstep, ih _ hndrest hmemrest]

/-- Flushing preserves the key list of the store. -/
theorem saveKVStore_keys (s : Store) :
    (saveKVStore s).map Prod.fst = s.map Prod.fst := by
  induction s with
  | nil => rfl
  | cons p rest ih => simp [saveKVStore, ih]

/-- C6 counterexample: a store holding key `k` with value `v` and owner
secret `s` flushes to a snapshot that records only the value; loading
it into a fresh store yields the entry with an empty secret, so the
set of (key, value, secret) triples is not reproduced. -/
theorem snapshot_roundtrip_cex :
    mapGet (loadKVStore (saveKVStore [(['k'], ⟨['v'], ['s'], 5⟩)]) [] 100) ['k']
      = some ⟨['v'], [], 100⟩
    ∧ (⟨['v'], [], 100⟩ : Entry).secret ≠ (⟨['v'], ['s'], 5⟩ : Entry).secret :=
  ⟨by decide, by decide⟩

/-- C6 amended: flushing a store with distinct keys and loading the
snapshot into a fresh empty store reproduces exactly the set of
(key, value) pairs; every loaded entry carries the empty secret, since
the snapshot does not record secrets, and `lastUpdate` equal to the
load time. -/
theorem snapshot_roundtrip (s : Store) (now : Int)
    (hnd : (s.map Prod.fst).Nodup) (k : Str) :
    mapGet (loadKVStore (saveKVStore s) [] now) k
      = (mapGet s k).map fun e => (⟨e.value, [], now⟩ : Entry) := by
  cases h : mapGet s k with
  | none =>
    have hk : k ∉ s.map Prod.fst := (mapGet_eq_none_iff s k).mp h
    have hk2 : k ∉ (saveKVStore s).map Prod.fst := by
      rw [saveKVStore_keys]
      exact hk
    rw [loadKVStore_mapGet_of_not_mem (saveKVStore s) now k [] hk2]
    rfl
  | some e =>
    have hmem : (k, e) ∈ s := mapGet_some_mem h
    have hmem2 : (k, e.value) ∈ saveKVStore s := List.mem_map.mpr ⟨(k, e), hmem, rfl⟩
    have hnd2 : ((saveKVStore s).map Prod.fst).Nodup := by
      rw [saveKVStore_keys]
      exact hnd
    rw [loadKVStore_mapGet_of_mem (saveKVStore s) now k e.value [] hnd2 hmem2]
    rfl

/-- C6 amended witness: a two-key store round-trips to the same keys and
values, with the secret dropped and the timestamp reset to load time. -/
theorem snapshot_roundtrip_witness :
    mapGet (loadKVStore
        (saveKVStore [(['a'], ⟨['x'], ['t'], 3⟩), (['b'], ⟨['y'], [], 4⟩)]) [] 9) ['a']
      = (mapGet ([(['a'], ⟨['x'], ['t'], 3⟩), (['b'], ⟨['y'], [], 4⟩)] : Store)
          ['a']).map fun e => (⟨e.value, [], 9⟩ : Entry) :=
  snapshot_roundtrip [(['a'], ⟨['x'], ['t'], 3⟩), (['b'], ⟨['y'], [], 4⟩)] 9
    (by decide) ['a']

end Rendezvous
